import Mathlib

/-!
Verification of the core matching/aggregation logic of the skyblock-sniper
repository (color model, piece classifier, item query ranking, set
aggregation, owner enrichment cap).

JavaScript strings are shallowly embedded as `List Char`; machine numbers
as `Nat`/`Int` (all integer arithmetic in the source stays far below 2^53,
and the only fractional value, `avgDist`, is a sum of at most four naturals
≤ 405 divided by 3 or 4 — doubles of that magnitude are ordered and equated
exactly like the underlying rationals, so the fraction is carried as an
exact numerator/denominator pair).  Fallible operations return `Option`.
-/

namespace SkyblockSniper

/- ===== character helpers ===== -/

/-- ASCII whitespace stripped by `String.prototype.trim` (the exotic Unicode
whitespace code points are irrelevant to the inputs considered here). -/
def isWsChar (c : Char) : Bool :=
  c == ' ' || c == '\t' || c == '\n' || c == '\r' || c == '\x0b' || c == '\x0c'

/-- `s.trim()`. -/
def trimList (s : List Char) : List Char :=
  ((s.dropWhile isWsChar).reverse.dropWhile isWsChar).reverse

/-- The character class `[0-9A-Fa-f]` of the hex regexes. -/
def HEX_DIGITS : List Char :=
  ['0', '1', '2', '3', '4', '5', '6', '7', '8', '9',
   'A', 'B', 'C', 'D', 'E', 'F', 'a', 'b', 'c', 'd', 'e', 'f']

/-- The hex digits that survive `toUpperCase` unchanged (canonical output). -/
def UPPER_HEX : List Char :=
  ['0', '1', '2', '3', '4', '5', '6', '7', '8', '9', 'A', 'B', 'C', 'D', 'E', 'F']

def isHexDigit (c : Char) : Bool := decide (c ∈ HEX_DIGITS)

def isUpperHexDigit (c : Char) : Bool := decide (c ∈ UPPER_HEX)

/-- `/^[0-9A-Fa-f]{3}$/.test s`. -/
def isHex3 (s : List Char) : Bool := s.length == 3 && s.all isHexDigit

/-- `/^[0-9A-Fa-f]{6}$/.test s`. -/
def isHex6 (s : List Char) : Bool := s.length == 6 && s.all isHexDigit

/-- `hay.startsWith pat` on raw character lists. -/
def listStartsWith : List Char → List Char → Bool
  | _, [] => true
  | [], _ :: _ => false
  | c :: t, p :: ps => c == p && listStartsWith t ps

/-- `parseInt (String c) 16` for a single hex digit, by character code
(`0` stands in for the `NaN` of a non-digit, which never occurs on the
inputs reached here). -/
def hexVal (c : Char) : Nat :=
  if 48 ≤ c.toNat ∧ c.toNat ≤ 57 then c.toNat - 48
  else if 65 ≤ c.toNat ∧ c.toNat ≤ 70 then c.toNat - 55
  else if 97 ≤ c.toNat ∧ c.toNat ≤ 102 then c.toNat - 87
  else 0

/-- `Math.abs (x - y)` for naturals. -/
def absDiff (x y : Nat) : Nat := ((x : Int) - (y : Int)).natAbs

/- ===== Color Model ===== -/

/-- `if (s.startsWith("#")) s = s.slice(1)`. -/
def stripHash (t : List Char) : List Char :=
  if listStartsWith t ['#'] then t.drop 1 else t

/-- `normalizeHex` from `app/api/sets/route.ts` (lines 11-18): falsy check,
trim, strip a leading `#`, expand a 3-digit form by doubling each digit, and
return the 6-digit form uppercased behind a `#`, or `null`. -/
def normalizeHex (input : Option (List Char)) : Option (List Char) :=
  match input with
  | none => none
  | some s0 =>
    if s0 = [] then none
    else
      let s1 := stripHash (trimList s0)
      let s2 := if isHex3 s1 then s1.flatMap (fun c => [c, c]) else s1
      if isHex6 s2 then some ('#' :: s2.map Char.toUpper) else none

/-- Canonical shape of `normalizeHex` outputs: `#` then 6 uppercase hex digits. -/
def isCanonicalHex (s : List Char) : Bool :=
  match s with
  | c :: rest => c == '#' && rest.length == 6 && rest.all isUpperHexDigit
  | [] => false

def NIBBLE_WEIGHTS : List Nat := [8, 1, 8, 1, 8, 1]

/-- `nibbleDistance` from `app/api/sets/route.ts` (lines 57-69): strip the
marker, uppercase, and sum the weighted absolute nibble differences. -/
def nibbleDistance (aHex bHex : List Char) : Nat :=
  let a := (aHex.drop 1).map Char.toUpper
  let b := (bHex.drop 1).map Char.toUpper
  (List.range 6).foldl
    (fun total i =>
      total + NIBBLE_WEIGHTS.getD i 0 * absDiff (hexVal (a.getD i '0')) (hexVal (b.getD i '0')))
    0

/-- The `i`-th nibble value read off a `#RRGGBB` string, exactly as
`nibbleDistance` reads it. -/
def nib (s : List Char) (i : Nat) : Nat :=
  hexVal (((s.drop 1).map Char.toUpper).getD i '0')

/- ===== basic lemmas about the color model ===== -/

theorem hexVal_le15 (c : Char) : hexVal c ≤ 15 := by
  unfold hexVal
  split
  · omega
  split
  · omega
  split
  · omega
  omega

theorem absDiff_le15 {x y : Nat} (hx : x ≤ 15) (hy : y ≤ 15) : absDiff x y ≤ 15 := by
  unfold absDiff; omega

theorem absDiff_self (x : Nat) : absDiff x x = 0 := by
  unfold absDiff; omega

theorem nibbleDistance_unfold (aHex bHex : List Char) :
    nibbleDistance aHex bHex =
      0 + 8 * absDiff (nib aHex 0) (nib bHex 0)
        + 1 * absDiff (nib aHex 1) (nib bHex 1)
        + 8 * absDiff (nib aHex 2) (nib bHex 2)
        + 1 * absDiff (nib aHex 3) (nib bHex 3)
        + 8 * absDiff (nib aHex 4) (nib bHex 4)
        + 1 * absDiff (nib aHex 5) (nib bHex 5) := by
  rfl

theorem nib_le15 (s : List Char) (i : Nat) : nib s i ≤ 15 := hexVal_le15 _

theorem nibbleDistance_le_405 (a b : List Char) : nibbleDistance a b ≤ 405 := by
  rw [nibbleDistance_unfold]
  have h0 := absDiff_le15 (nib_le15 a 0) (nib_le15 b 0)
  have h1 := absDiff_le15 (nib_le15 a 1) (nib_le15 b 1)
  have h2 := absDiff_le15 (nib_le15 a 2) (nib_le15 b 2)
  have h3 := absDiff_le15 (nib_le15 a 3) (nib_le15 b 3)
  have h4 := absDiff_le15 (nib_le15 a 4) (nib_le15 b 4)
  have h5 := absDiff_le15 (nib_le15 a 5) (nib_le15 b 5)
  omega

theorem nibbleDistance_self (a : List Char) : nibbleDistance a a = 0 := by
  rw [nibbleDistance_unfold]
  simp [absDiff_self]

theorem nibbleDistance_eq_405_iff (a b : List Char) :
    nibbleDistance a b = 405 ↔ ∀ i, i < 6 → absDiff (nib a i) (nib b i) = 15 := by
  rw [nibbleDistance_unfold]
  have h0 := absDiff_le15 (nib_le15 a 0) (nib_le15 b 0)
  have h1 := absDiff_le15 (nib_le15 a 1) (nib_le15 b 1)
  have h2 := absDiff_le15 (nib_le15 a 2) (nib_le15 b 2)
  have h3 := absDiff_le15 (nib_le15 a 3) (nib_le15 b 3)
  have h4 := absDiff_le15 (nib_le15 a 4) (nib_le15 b 4)
  have h5 := absDiff_le15 (nib_le15 a 5) (nib_le15 b 5)
  constructor
  · intro h i hi
    interval_cases i <;> omega
  · intro h
    have e0 := h 0 (by omega)
    have e1 := h 1 (by omega)
    have e2 := h 2 (by omega)
    have e3 := h 3 (by omega)
    have e4 := h 4 (by omega)
    have e5 := h 5 (by omega)
    omega

/- ===== finite character facts (checked over the 16/22-element digit lists) ===== -/

theorem all_mem {p : Char → Bool} {l : List Char} (h : l.all p = true) {c : Char}
    (hc : c ∈ l) : p c = true :=
  List.all_eq_true.mp h c hc

theorem upperHex_toUpper_fixed : UPPER_HEX.all (fun c => Char.toUpper c == c) = true := by
  decide

theorem hexDigit_toUpper_upper :
    HEX_DIGITS.all (fun c => isUpperHexDigit (Char.toUpper c)) = true := by
  decide

theorem upperHex_not_ws : UPPER_HEX.all (fun c => !isWsChar c) = true := by decide

theorem upperHex_isHex : UPPER_HEX.all isHexDigit = true := by decide

theorem upperHex_hexVal_inj :
    (UPPER_HEX.all fun c => UPPER_HEX.all fun d => decide (hexVal c = hexVal d → c = d)) = true := by
  decide

theorem toUpper_of_upperHex {c : Char} (h : isUpperHexDigit c = true) : Char.toUpper c = c := by
  have hm : c ∈ UPPER_HEX := of_decide_eq_true h
  simpa using all_mem upperHex_toUpper_fixed hm

/- ===== shape of normalizeHex outputs, idempotence (C10) ===== -/

theorem canonical_of_hex6 {t : List Char} (h6 : isHex6 t = true) :
    isCanonicalHex ('#' :: t.map Char.toUpper) = true := by
  simp only [isHex6, Bool.and_eq_true, beq_iff_eq] at h6
  obtain ⟨hlen, hall⟩ := h6
  simp only [isCanonicalHex, Bool.and_eq_true, beq_iff_eq]
  refine ⟨⟨by simp, by simp [hlen]⟩, ?_⟩
  rw [List.all_eq_true]
  intro c hc
  rw [List.mem_map] at hc
  obtain ⟨d, hd, rfl⟩ := hc
  have hdhex : d ∈ HEX_DIGITS := of_decide_eq_true (List.all_eq_true.mp hall d hd)
  exact all_mem hexDigit_toUpper_upper hdhex

theorem normalizeHex_shape {s r : List Char} (h : normalizeHex (some s) = some r) :
    isCanonicalHex r = true := by
  simp only [normalizeHex] at h
  split at h
  next => exact absurd h (by simp)
  next =>
    split at h
    next =>
      split at h
      next h6 => exact (Option.some_inj.mp h) ▸ canonical_of_hex6 h6
      next => exact absurd h (by simp)
    next =>
      split at h
      next h6 => exact (Option.some_inj.mp h) ▸ canonical_of_hex6 h6
      next => exact absurd h (by simp)

theorem dropWhile_ws_eq_self {l : List Char} (h : ∀ c ∈ l, isWsChar c = false) :
    l.dropWhile isWsChar = l := by
  cases l with
  | nil => rfl
  | cons a t => simp [List.dropWhile_cons, h a (List.mem_cons_self a t)]

theorem trimList_eq_self {l : List Char} (h : ∀ c ∈ l, isWsChar c = false) :
    trimList l = l := by
  unfold trimList
  rw [dropWhile_ws_eq_self h]
  rw [dropWhile_ws_eq_self (fun c hc => h c (List.mem_reverse.mp hc))]
  exact List.reverse_reverse l

theorem canonicalHex_normalize_self {r : List Char} (h : isCanonicalHex r = true) :
    normalizeHex (some r) = some r := by
  match r, h with
  | c :: ds, h =>
    simp only [isCanonicalHex, Bool.and_eq_true, beq_iff_eq] at h
    obtain ⟨⟨rfl, hlen⟩, hall⟩ := h
    have hup : ∀ d ∈ ds, isUpperHexDigit d = true := List.all_eq_true.mp hall
    have hnw : ∀ d ∈ ('#' :: ds), isWsChar d = false := by
      intro d hd
      rcases List.mem_cons.mp hd with rfl | hd2
      · decide
      · simpa using all_mem upperHex_not_ws (of_decide_eq_true (hup d hd2))
    have h3 : isHex3 ds = false := by
      simp [isHex3, hlen]
    have h6 : isHex6 ds = true := by
      simp only [isHex6, Bool.and_eq_true, beq_iff_eq]
      refine ⟨hlen, ?_⟩
      rw [List.all_eq_true]
      intro d hd
      exact all_mem upperHex_isHex (of_decide_eq_true (hup d hd))
    have hmap : ds.map Char.toUpper = ds := by
      have : ds.map Char.toUpper = ds.map id :=
        List.map_congr_left (fun d hd => toUpper_of_upperHex (hup d hd))
      simpa using this
    have hstrip : stripHash ('#' :: ds) = ds := by
      simp [stripHash, listStartsWith]
    simp only [normalizeHex, if_neg (List.cons_ne_nil '#' ds)]
    rw [trimList_eq_self hnw, hstrip]
    simp [h3, h6, hmap]

/-- C10: `normalizeHex` is idempotent on its successful outputs — whenever
`normalizeHex s` returns a canonical value `r`, running it again on `r`
returns `r` unchanged. -/
theorem C10_normalizeHex_idempotent (s r : List Char)
    (h : normalizeHex (some s) = some r) : normalizeHex (some r) = some r :=
  canonicalHex_normalize_self (normalizeHex_shape h)

theorem C10_normalizeHex_idempotent_witness :
    normalizeHex (some ['#', 'A', 'A', 'B', 'B', 'C', 'C']) =
      some ['#', 'A', 'A', 'B', 'B', 'C', 'C'] :=
  C10_normalizeHex_idempotent ['a', 'b', 'c'] _ (by decide)

/- ===== C4: nibble distance range ===== -/

/-- C4: between canonical 6-digit hex strings the nibble distance lies in
[0, 405], is 0 on identical arguments, attains 405 exactly when all six
nibble values are maximally opposed (pointwise difference 15), and in
particular `nibbleDistance "#000000" "#FFFFFF" = 405`. -/
theorem C4_nibbleDistance_range (a b : List Char)
    (ha : isCanonicalHex a = true) (hb : isCanonicalHex b = true) :
    (0 ≤ nibbleDistance a b ∧ nibbleDistance a b ≤ 405)
    ∧ nibbleDistance a a = 0
    ∧ (nibbleDistance a b = 405 ↔ ∀ i, i < 6 → absDiff (nib a i) (nib b i) = 15)
    ∧ nibbleDistance ['#', '0', '0', '0', '0', '0', '0']
        ['#', 'F', 'F', 'F', 'F', 'F', 'F'] = 405 :=
  ⟨⟨Nat.zero_le _, nibbleDistance_le_405 a b⟩, nibbleDistance_self a,
    nibbleDistance_eq_405_iff a b, by decide⟩

theorem C4_nibbleDistance_range_witness :
    nibbleDistance ['#', '0', '0', '0', '0', '0', '0']
      ['#', 'F', 'F', 'F', 'F', 'F', 'F'] = 405 :=
  (C4_nibbleDistance_range ['#', '0', '0', '0', '0', '0', '0']
    ['#', 'F', 'F', 'F', 'F', 'F', 'F'] (by decide) (by decide)).2.2.2

/- ===== C5: normalizeHex on 3-digit inputs ===== -/

theorem hex3_double_hex6 {t : List Char} (h3 : isHex3 t = true) :
    isHex6 (t.flatMap (fun c => [c, c])) = true := by
  simp only [isHex3, Bool.and_eq_true, beq_iff_eq] at h3
  obtain ⟨hlen, hall⟩ := h3
  rcases t with _ | ⟨a, _ | ⟨b, _ | ⟨c, _ | ⟨d, t⟩⟩⟩⟩ <;> simp_all [isHex6]

/-- C5 (corrected): the claim omits the `trim` the code performs before
stripping the marker.  For the input `" abc"` the remainder after the
(absent) marker is `" abc"`, which matches neither the 3-digit nor the
6-digit hex pattern, yet `normalizeHex` returns `"#AABBCC"` rather than
the claimed `null`. -/
theorem C5_counterexample :
    isHex3 (stripHash [' ', 'a', 'b', 'c']) = false
    ∧ isHex6 (stripHash [' ', 'a', 'b', 'c']) = false
    ∧ normalizeHex (some [' ', 'a', 'b', 'c']) = some ['#', 'A', 'A', 'B', 'B', 'C', 'C'] := by
  decide

/-- C5 (amended): for every input string, after trimming whitespace and
stripping an optional leading `#`: a 3-hex-digit remainder yields the
doubled, uppercased 6-digit string behind a `#`, and a remainder matching
neither the 3- nor the 6-digit hex pattern yields `null`. -/
theorem C5_normalizeHex_amended (s : List Char) :
    (isHex3 (stripHash (trimList s)) = true →
        normalizeHex (some s) =
          some ('#' :: ((stripHash (trimList s)).flatMap (fun c => [c, c])).map Char.toUpper))
    ∧ (isHex3 (stripHash (trimList s)) = false → isHex6 (stripHash (trimList s)) = false →
        normalizeHex (some s) = none) := by
  constructor
  · intro h3
    have hs : s ≠ [] := by
      intro hnil
      rw [hnil] at h3
      exact absurd h3 (by decide)
    simp [normalizeHex, hs, h3, hex3_double_hex6 h3]
  · intro h3 h6
    by_cases hs : s = []
    · simp [normalizeHex, hs]
    · simp [normalizeHex, hs, h3, h6]

theorem C5_normalizeHex_amended_witness :
    normalizeHex (some ['a', 'b', 'c']) = some ['#', 'A', 'A', 'B', 'B', 'C', 'C'] := by
  have h := (C5_normalizeHex_amended ['a', 'b', 'c']).1 (by decide)
  exact h.trans (by decide)

/- ===== Piece Classifier ===== -/

/-- `s.toLowerCase()` (ASCII). -/
def lowerStr (s : List Char) : List Char := s.map Char.toLower

/-- The regex word class `\w = [A-Za-z0-9_]`. -/
def isWordChar (c : Char) : Bool :=
  decide ((65 ≤ c.toNat ∧ c.toNat ≤ 90) ∨ (97 ≤ c.toNat ∧ c.toNat ≤ 122) ∨
    (48 ≤ c.toNat ∧ c.toNat ≤ 57) ∨ c = '_')

/-- Substring occurrence test (`/pat/` on an already-lowercased string). -/
def containsSub (pat : List Char) : List Char → Bool
  | [] => listStartsWith [] pat
  | c :: t => listStartsWith (c :: t) pat || containsSub pat t

/-- `/pat/i.test hay`. -/
def icontains (hay pat : List Char) : Bool := containsSub pat (lowerStr hay)

/-- Is the position after `prev` a word boundary (`\b`)? -/
def boundaryOk : Option Char → Bool
  | none => true
  | some p => !isWordChar p

/-- Does `pat` occur at the head of `l`, followed by a word boundary? -/
def wordHitHere (pat l : List Char) : Bool :=
  listStartsWith l pat &&
    (match l.drop pat.length with
     | [] => true
     | d :: _ => !isWordChar d)

/-- Scan for a `\bpat\b` occurrence, tracking the preceding character. -/
def wordScan (pat : List Char) : Option Char → List Char → Bool
  | _, [] => false
  | prev, c :: t => (boundaryOk prev && wordHitHere pat (c :: t)) || wordScan pat (some c) t

/-- `/\bpat\b/i.test hay` for a pattern made of word characters. -/
def iwordMatch (hay pat : List Char) : Bool := wordScan pat none (lowerStr hay)

def patHelmet : List Char := ['h', 'e', 'l', 'm', 'e', 't']
def patHelm : List Char := ['h', 'e', 'l', 'm']
def patCap : List Char := ['c', 'a', 'p']
def patChest : List Char := ['c', 'h', 'e', 's', 't']
def patChestplate : List Char := ['c', 'h', 'e', 's', 't', 'p', 'l', 'a', 't', 'e']
def patLegging : List Char := ['l', 'e', 'g', 'g', 'i', 'n', 'g']
def patPants : List Char := ['p', 'a', 'n', 't', 's']
def patLeg : List Char := ['l', 'e', 'g']
def patLegs : List Char := ['l', 'e', 'g', 's']
def patBoot : List Char := ['b', 'o', 'o', 't']
def patShoe : List Char := ['s', 'h', 'o', 'e']

inductive PieceKind where
  | helmet
  | chestplate
  | leggings
  | boots
deriving DecidableEq, Repr

/-- `PIECE_MATCHERS.helmet = [/helmet/i, /\bhelm\b/i, /\bcap\b/i]`. -/
def matchesHelmet (name : List Char) : Bool :=
  icontains name patHelmet || iwordMatch name patHelm || iwordMatch name patCap

/-- `PIECE_MATCHERS.chestplate = [/chest/i, /chestplate/i, /\bchest\b/i]`. -/
def matchesChestplate (name : List Char) : Bool :=
  icontains name patChest || icontains name patChestplate || iwordMatch name patChest

/-- `PIECE_MATCHERS.leggings = [/legging/i, /pants/i, /\blegs?\b/i]`; the
optional-`s` regex is the union of the whole words `leg` and `legs`. -/
def matchesLeggings (name : List Char) : Bool :=
  icontains name patLegging || icontains name patPants ||
    (iwordMatch name patLeg || iwordMatch name patLegs)

/-- `PIECE_MATCHERS.boots = [/boot/i, /shoe/i]`. -/
def matchesBoots (name : List Char) : Bool :=
  icontains name patBoot || icontains name patShoe

def pieceMatches (k : PieceKind) (name : List Char) : Bool :=
  match k with
  | .helmet => matchesHelmet name
  | .chestplate => matchesChestplate name
  | .leggings => matchesLeggings name
  | .boots => matchesBoots name

/-- `detectPiece` from `app/api/sets/route.ts` (lines 45-50): first kind, in
declaration order helmet/chestplate/leggings/boots, whose pattern set
matches, else `null`. -/
def detectPiece (name : List Char) : Option PieceKind :=
  [PieceKind.helmet, PieceKind.chestplate, PieceKind.leggings, PieceKind.boots].find?
    (fun k => pieceMatches k name)

def wiseDragonHelmetName : List Char :=
  ['W', 'i', 's', 'e', ' ', 'D', 'r', 'a', 'g', 'o', 'n', ' ', 'H', 'e', 'l', 'm', 'e', 't']

def farmSuitLeggingsName : List Char :=
  ['F', 'a', 'r', 'm', ' ', 'S', 'u', 'i', 't', ' ', 'L', 'e', 'g', 'g', 'i', 'n', 'g', 's']

def randomTrinketName : List Char :=
  ['R', 'a', 'n', 'd', 'o', 'm', ' ', 'T', 'r', 'i', 'n', 'k', 'e', 't']

/-- C6: the classifier is a total function returning the first PieceKind in
the fixed priority order helmet, chestplate, leggings, boots whose pattern
set matches the (case-insensitively tested) name, `none` when no set
matches; and the three concrete examples from the spec evaluate as
claimed. -/
theorem C6_detectPiece_priority (name : List Char) :
    (detectPiece name = some PieceKind.helmet ↔ matchesHelmet name = true)
    ∧ (detectPiece name = some PieceKind.chestplate ↔
        (matchesHelmet name = false ∧ matchesChestplate name = true))
    ∧ (detectPiece name = some PieceKind.leggings ↔
        (matchesHelmet name = false ∧ matchesChestplate name = false ∧
          matchesLeggings name = true))
    ∧ (detectPiece name = some PieceKind.boots ↔
        (matchesHelmet name = false ∧ matchesChestplate name = false ∧
          matchesLeggings name = false ∧ matchesBoots name = true))
    ∧ (detectPiece name = none ↔
        (matchesHelmet name = false ∧ matchesChestplate name = false ∧
          matchesLeggings name = false ∧ matchesBoots name = false))
    ∧ detectPiece wiseDragonHelmetName = some PieceKind.helmet
    ∧ detectPiece farmSuitLeggingsName = some PieceKind.leggings
    ∧ detectPiece randomTrinketName = none := by
  refine ⟨?_, ?_, ?_, ?_, ?_, by decide, by decide, by decide⟩ <;>
    cases hh : matchesHelmet name <;> cases hc : matchesChestplate name <;>
      cases hl : matchesLeggings name <;> cases hb : matchesBoots name <;>
        simp [detectPiece, List.find?, pieceMatches, hh, hc, hl, hb]

/- ===== data model ===== -/

/-- The parsed `extra` JSON side channel.  `Row.extra = none` covers both a
missing payload and an unparseable one (the `JSON.parse` try/catch). -/
structure ExtraOwner where
  playerUuid : Option (List Char)
deriving DecidableEq

structure Extra where
  owner_playerUuid : Option (List Char)
  owner : Option ExtraOwner
  reforge : Option (List Char)
deriving DecidableEq

/-- One `items` table row as selected by the endpoints. -/
structure Row where
  id : Nat
  uuid : List Char
  name : List Char
  color : Option (List Char)
  rarity : Option (List Char)
  price : Option Int
  extra : Option Extra
deriving DecidableEq

/-- JavaScript truthiness of a nullable string. -/
def strTruthy : Option (List Char) → Bool
  | none => false
  | some s => !s.isEmpty

/-- `a || b` on nullable strings. -/
def jsOrStr (a b : Option (List Char)) : Option (List Char) :=
  if strTruthy a then a else b

/-- `extra?.owner_playerUuid || extra?.owner?.playerUuid || null`. -/
def rowOwnerUuid (r : Row) : Option (List Char) :=
  match r.extra with
  | none => none
  | some e =>
    jsOrStr e.owner_playerUuid
      (match e.owner with
       | none => none
       | some o => o.playerUuid)

/- ===== Set Aggregator (app/api/sets/route.ts GET, lines 175-247) ===== -/

def patDragon : List Char := ['d', 'r', 'a', 'g', 'o', 'n']

/-- `requiresHelmet` (lines 53-55): no helmet needed iff the query contains
the token `dragon`, case-insensitively. -/
def requiresHelmet (setQuery : List Char) : Bool := !icontains setQuery patDragon

/-- `titleCase` (lines 19-22): lowercase, then uppercase every `\b\w`. -/
def titleCaseGo (prev : Option Char) : List Char → List Char
  | [] => []
  | c :: t =>
    (if boundaryOk prev && isWordChar c then Char.toUpper c else c) :: titleCaseGo (some c) t

def titleCase (s : List Char) : List Char :=
  if s = [] then [] else titleCaseGo none (lowerStr s)

def setLabelOf (q : List Char) : List Char := titleCase q ++ [' ', 'S', 'e', 't']

/-- The per-row admission checks of the bucketing loop (lines 175-198):
resolvable truthy owner, known piece, resolvable color, distance within
tolerance (exact when tolerance is 0). -/
def setsRowCheck (hex : List Char) (tol : Nat) (r : Row) : Option (List Char × PieceKind × Nat) :=
  match rowOwnerUuid r with
  | none => none
  | some owner =>
    if owner.isEmpty then none
    else
      match detectPiece r.name with
      | none => none
      | some piece =>
        match normalizeHex r.color with
        | none => none
        | some itemHex =>
          let dist := nibbleDistance itemHex hex
          if tol = 0 then
            if dist ≠ 0 then none else some (owner, piece, dist)
          else
            if tol < dist then none else some (owner, piece, dist)

/-- A `Bucket` of the aggregation map (`pieces` / `pieceDist` of the source
spelled out as one optional field per slot). -/
structure Bucket where
  ownerUuid : List Char
  ownerUsername : Option (List Char)
  setLabel : List Char
  color : List Char
  phelmet : Option Row
  pchestplate : Option Row
  pleggings : Option Row
  pboots : Option Row
  dhelmet : Option Nat
  dchestplate : Option Nat
  dleggings : Option Nat
  dboots : Option Nat
  rarity : Option (List Char)
deriving DecidableEq

def Bucket.pieceAt (g : Bucket) : PieceKind → Option Row
  | .helmet => g.phelmet
  | .chestplate => g.pchestplate
  | .leggings => g.pleggings
  | .boots => g.pboots

def Bucket.distAt (g : Bucket) : PieceKind → Option Nat
  | .helmet => g.dhelmet
  | .chestplate => g.dchestplate
  | .leggings => g.dleggings
  | .boots => g.dboots

def Bucket.setPiece (g : Bucket) (k : PieceKind) (r : Row) : Bucket :=
  match k with
  | .helmet => { g with phelmet := some r }
  | .chestplate => { g with pchestplate := some r }
  | .leggings => { g with pleggings := some r }
  | .boots => { g with pboots := some r }

def Bucket.setDist (g : Bucket) (k : PieceKind) (d : Nat) : Bucket :=
  match k with
  | .helmet => { g with dhelmet := some d }
  | .chestplate => { g with dchestplate := some d }
  | .leggings => { g with dleggings := some d }
  | .boots => { g with dboots := some d }

/-- A fresh bucket (lines 201-216): rarity seeded from the creating row. -/
def newBucket (owner : List Char) (rarity : Option (List Char))
    (setLabel hex : List Char) : Bucket :=
  { ownerUuid := owner, ownerUsername := none, setLabel := setLabel, color := hex,
    phelmet := none, pchestplate := none, pleggings := none, pboots := none,
    dhelmet := none, dchestplate := none, dleggings := none, dboots := none,
    rarity := rarity }

/-- Lines 217-222: fill the slot only when still empty (first writer wins),
recording row and distance together and backfilling a falsy rarity. -/
def bucketInsert (piece : PieceKind) (r : Row) (dist : Nat) (g : Bucket) : Bucket :=
  if (g.pieceAt piece).isNone then
    let g1 := (g.setPiece piece r).setDist piece dist
    if !strTruthy g.rarity && strTruthy r.rarity then { g1 with rarity := r.rarity } else g1
  else g

/-- `Map.get` over the insertion-ordered bucket association list. -/
def assocFind : List (List Char × Bucket) → List Char → Option Bucket
  | [], _ => none
  | kb :: t, key => if kb.1 = key then some kb.2 else assocFind t key

/-- One iteration of the bucketing loop.  The map key
`ownerUuid.toLowerCase() + "::" + setLabel + "::" + hex` is collapsed to its
only varying component, the lowercased owner, since `setLabel` and `hex`
are constant within a request. -/
def setsBucketStep (hex setLabel : List Char) (tol : Nat)
    (acc : List (List Char × Bucket)) (r : Row) : List (List Char × Bucket) :=
  match setsRowCheck hex tol r with
  | none => acc
  | some (owner, piece, dist) =>
    match assocFind acc (lowerStr owner) with
    | some _ =>
      acc.map (fun kb =>
        if kb.1 = lowerStr owner then (kb.1, bucketInsert piece r dist kb.2) else kb)
    | none =>
      acc ++ [(lowerStr owner, bucketInsert piece r dist (newBucket owner r.rarity setLabel hex))]

def setsBuckets (hex setLabel : List Char) (tol : Nat) (rows : List Row) :
    List (List Char × Bucket) :=
  rows.foldl (setsBucketStep hex setLabel tol) []

def requiredPieces : Bool → List PieceKind
  | true => [.helmet, .chestplate, .leggings, .boots]
  | false => [.chestplate, .leggings, .boots]

/-- A completed bucket with its aggregates (lines 226-247).  The IEEE double
`avgDist = sum / count` is carried exactly as the fraction
`avgNum / avgDen` (`sum ≤ 4 * 405` and `count ∈ {3, 4}`, so doubles of this
magnitude are ordered and equated exactly like the underlying rationals;
`setLe` compares the fractions by cross-multiplication). -/
structure Ready extends Bucket where
  isExact : Bool
  avgNum : Nat
  avgDen : Nat
  maxDist : Nat
deriving DecidableEq

/-- The slot-completeness test of lines 229-234. -/
def completeBucket : Bool → Bucket → Bool
  | true, g => g.phelmet.isSome && g.pchestplate.isSome && g.pleggings.isSome && g.pboots.isSome
  | false, g => g.pchestplate.isSome && g.pleggings.isSome && g.pboots.isSome

/-- `req.map(pk => g.pieceDist[pk] ?? 9999)` (line 241; the `?? 9999` can
never fire in a retained bucket, it is kept for faithfulness). -/
def reqDists (wantHelmet : Bool) (g : Bucket) : List Nat :=
  (requiredPieces wantHelmet).map (fun pk => (g.distAt pk).getD 9999)

/-- Lines 241-246: `maxDist`, `avgDist = sum / count` (exact in `ℚ`, see the
header) and `isExact = (maxDist === 0)`. -/
def bucketAggregates (wantHelmet : Bool) (g : Bucket) : Ready :=
  { toBucket := g,
    isExact := (reqDists wantHelmet g).foldl max 0 == 0,
    avgNum := (reqDists wantHelmet g).sum,
    avgDen := (reqDists wantHelmet g).length,
    maxDist := (reqDists wantHelmet g).foldl max 0 }

/-- Lines 228-247: keep only complete buckets, with their aggregates. -/
def completeSets (wantHelmet : Bool) (bs : List Bucket) : List Ready :=
  bs.filterMap fun g =>
    if completeBucket wantHelmet g then some (bucketAggregates wantHelmet g) else none

/-- `Array.from(new Set(xs))`: dedup keeping first occurrences. -/
def dedupKeepFirst (xs : List (List Char)) : List (List Char) :=
  xs.foldl (fun acc x => if x ∈ acc then acc else acc ++ [x]) []

/-- Lines 250-252: distinct truthy owners, capped at 50. -/
def setsOwnersToResolve (completed : List Ready) : List (List Char) :=
  (dedupKeepFirst ((completed.map (fun g => g.ownerUuid)).filter (fun u => !u.isEmpty))).take 50

/-- Lines 253-258: write resolved usernames (`|| null`) into the groups whose
owner made the capped resolution batch. -/
def enrichSets (resolve : List Char → Option (List Char)) (completed : List Ready) :
    List Ready :=
  let owners := setsOwnersToResolve completed
  completed.map fun g =>
    if !g.ownerUuid.isEmpty && g.ownerUuid ∈ owners then
      { g with toBucket := { g.toBucket with ownerUsername := jsOrStr (resolve g.ownerUuid) none } }
    else g

/-- Code-point comparison standing in for `localeCompare ≤ 0`. -/
def lexLe : List Char → List Char → Bool
  | [], _ => true
  | _ :: _, [] => false
  | a :: as, b :: bs =>
    if a.toNat < b.toNat then true
    else if b.toNat < a.toNat then false
    else lexLe as bs

/-- `a.ownerUsername || a.ownerUuid || ""`. -/
def ownerSortKey (g : Ready) : List Char :=
  match jsOrStr g.ownerUsername (jsOrStr (some g.ownerUuid) (some [])) with
  | some s => s
  | none => []

/-- The sort comparator of lines 261-267 as a total preorder: exact sets
first, then ascending average distance (fractions compared by
cross-multiplication), then owner key. -/
def setLe (a b : Ready) : Bool :=
  if a.isExact != b.isExact then a.isExact
  else if a.avgNum * b.avgDen != b.avgNum * a.avgDen then
    decide (a.avgNum * b.avgDen < b.avgNum * a.avgDen)
  else lexLe (ownerSortKey a) (ownerSortKey b)

/-- The whole set-aggregation pipeline after row fetch: bucket, complete,
enrich, sort (a stable mergesort, like the ECMAScript `Array.sort`). -/
def setsPipeline (resolve : List Char → Option (List Char)) (hex setLabel : List Char)
    (tol : Nat) (wantHelmet : Bool) (rows : List Row) : List Ready :=
  (enrichSets resolve
    (completeSets wantHelmet ((setsBuckets hex setLabel tol rows).map Prod.snd))).mergeSort setLe

inductive SetsOut where
  | clientError
  | ok (total : Nat) (items : List Ready) (targetHex : List Char)
      (tolerance : Nat) (wantHelmet : Bool)
deriving DecidableEq

/-- The set-search `GET` (lines 115-301), with the row fetch abstracted as
the `rows` argument and username resolution as the `resolve` oracle. -/
def setsGET (resolve : List Char → Option (List Char)) (q color : List Char)
    (tolerance limit page : Nat) (rows : List Row) : SetsOut :=
  let qRaw := trimList q
  let tol := min tolerance 405
  let limitC := min (max limit 1) 100
  let pageC := max page 1
  let offset := (pageC - 1) * limitC
  match normalizeHex (some (trimList color)) with
  | none => SetsOut.clientError
  | some hex =>
    if qRaw = [] then SetsOut.clientError
    else
      let sorted := setsPipeline resolve hex (setLabelOf qRaw) tol (requiresHelmet qRaw) rows
      SetsOut.ok sorted.length ((sorted.drop offset).take limitC) hex tol (requiresHelmet qRaw)

/- ===== bucket bookkeeping lemmas ===== -/

theorem pieceAt_setPiece_self (g : Bucket) (k : PieceKind) (r : Row) :
    (g.setPiece k r).pieceAt k = some r := by
  cases k <;> rfl

theorem pieceAt_setPiece_ne (g : Bucket) {k k' : PieceKind} (h : k ≠ k') (r : Row) :
    (g.setPiece k r).pieceAt k' = g.pieceAt k' := by
  cases k <;> cases k' <;> first | rfl | exact absurd rfl h

theorem pieceAt_setDist (g : Bucket) (k k' : PieceKind) (d : Nat) :
    (g.setDist k d).pieceAt k' = g.pieceAt k' := by
  cases k <;> cases k' <;> rfl

theorem distAt_setPiece (g : Bucket) (k k' : PieceKind) (r : Row) :
    (g.setPiece k r).distAt k' = g.distAt k' := by
  cases k <;> cases k' <;> rfl

theorem distAt_setDist_self (g : Bucket) (k : PieceKind) (d : Nat) :
    (g.setDist k d).distAt k = some d := by
  cases k <;> rfl

theorem distAt_setDist_ne (g : Bucket) {k k' : PieceKind} (h : k ≠ k') (d : Nat) :
    (g.setDist k d).distAt k' = g.distAt k' := by
  cases k <;> cases k' <;> first | rfl | exact absurd rfl h

theorem pieceAt_rarityUpd (g : Bucket) (x : Option (List Char)) (k : PieceKind) :
    ({ g with rarity := x } : Bucket).pieceAt k = g.pieceAt k := by
  cases k <;> rfl

theorem distAt_rarityUpd (g : Bucket) (x : Option (List Char)) (k : PieceKind) :
    ({ g with rarity := x } : Bucket).distAt k = g.distAt k := by
  cases k <;> rfl

theorem pieceAt_usernameUpd (g : Bucket) (x : Option (List Char)) (k : PieceKind) :
    ({ g with ownerUsername := x } : Bucket).pieceAt k = g.pieceAt k := by
  cases k <;> rfl

theorem distAt_usernameUpd (g : Bucket) (x : Option (List Char)) (k : PieceKind) :
    ({ g with ownerUsername := x } : Bucket).distAt k = g.distAt k := by
  cases k <;> rfl

theorem bucketInsert_occupied {g : Bucket} {piece : PieceKind}
    (h : (g.pieceAt piece).isSome = true) (r : Row) (d : Nat) :
    bucketInsert piece r d g = g := by
  cases hop : g.pieceAt piece with
  | none => rw [hop] at h; simp at h
  | some v => simp [bucketInsert, hop]

theorem bucketInsert_pieceAt_free {g : Bucket} {piece : PieceKind}
    (h : g.pieceAt piece = none) (r : Row) (d : Nat) :
    (bucketInsert piece r d g).pieceAt piece = some r
      ∧ (bucketInsert piece r d g).distAt piece = some d := by
  simp only [bucketInsert, h, Option.isNone_none, if_pos]
  constructor
  · split <;>
      simp [pieceAt_rarityUpd, pieceAt_setDist, pieceAt_setPiece_self]
  · split <;>
      simp [distAt_rarityUpd, distAt_setDist_self]

theorem bucketInsert_preserves {g : Bucket} {k : PieceKind} {r₀ : Row} {d₀ : Nat}
    (h2 : g.pieceAt k = some r₀) (h3 : g.distAt k = some d₀)
    (piece : PieceKind) (r : Row) (d : Nat) :
    (bucketInsert piece r d g).pieceAt k = some r₀
      ∧ (bucketInsert piece r d g).distAt k = some d₀ := by
  by_cases hpk : piece = k
  · subst hpk
    rw [bucketInsert_occupied (by simp [h2])]
    exact ⟨h2, h3⟩
  · unfold bucketInsert
    split
    · constructor <;>
        · split <;>
            simp [pieceAt_rarityUpd, distAt_rarityUpd, pieceAt_setDist, distAt_setPiece,
              pieceAt_setPiece_ne _ hpk, distAt_setDist_ne _ hpk, h2, h3]
    · exact ⟨h2, h3⟩

/-- The invariant that `pieces` and `pieceDist` are filled in lockstep. -/
def bucketSync (g : Bucket) : Prop :=
  ∀ k, (g.pieceAt k).isSome = (g.distAt k).isSome

theorem newBucket_sync (owner : List Char) (rarity : Option (List Char))
    (setLabel hex : List Char) : bucketSync (newBucket owner rarity setLabel hex) := by
  intro k
  cases k <;> rfl

theorem bucketInsert_sync {g : Bucket} (hs : bucketSync g) (piece : PieceKind)
    (r : Row) (d : Nat) : bucketSync (bucketInsert piece r d g) := by
  intro k
  by_cases hocc : (g.pieceAt piece).isSome = true
  · rw [bucketInsert_occupied hocc]
    exact hs k
  · have hfree : g.pieceAt piece = none := by
      cases hop : g.pieceAt piece with
      | none => rfl
      | some v => rw [hop] at hocc; simp at hocc
    by_cases hk : piece = k
    · subst hk
      have := bucketInsert_pieceAt_free hfree r d
      rw [this.1, this.2]
      rfl
    · unfold bucketInsert
      rw [if_pos (by simp [hfree])]
      split <;>
        simp [pieceAt_rarityUpd, distAt_rarityUpd, pieceAt_setDist, distAt_setPiece,
          pieceAt_setPiece_ne _ hk, distAt_setDist_ne _ hk, hs k]

theorem setsBucketStep_sync {hex setLabel : List Char} {tol : Nat}
    {acc : List (List Char × Bucket)} (hacc : ∀ kb ∈ acc, bucketSync kb.2) (r : Row) :
    ∀ kb ∈ setsBucketStep hex setLabel tol acc r, bucketSync kb.2 := by
  intro kb hkb
  unfold setsBucketStep at hkb
  split at hkb
  · exact hacc kb hkb
  · split at hkb
    · rw [List.mem_map] at hkb
      obtain ⟨kb0, hkb0, rfl⟩ := hkb
      split
      · exact bucketInsert_sync (hacc kb0 hkb0) _ _ _
      · exact hacc kb0 hkb0
    · rw [List.mem_append] at hkb
      rcases hkb with h | h
      · exact hacc kb h
      · simp only [List.mem_singleton] at h
        subst h
        exact bucketInsert_sync (newBucket_sync _ _ _ _) _ _ _

theorem setsBuckets_sync (hex setLabel : List Char) (tol : Nat) (rows : List Row) :
    ∀ kb ∈ setsBuckets hex setLabel tol rows, bucketSync kb.2 := by
  unfold setsBuckets
  suffices h : ∀ (acc : List (List Char × Bucket)), (∀ kb ∈ acc, bucketSync kb.2) →
      ∀ kb ∈ rows.foldl (setsBucketStep hex setLabel tol) acc, bucketSync kb.2 from
    h [] (fun kb hkb => absurd hkb (List.not_mem_nil kb))
  induction rows with
  | nil => intro acc hacc; exact hacc
  | cons r rs ih =>
    intro acc hacc
    rw [List.foldl_cons]
    exact ih _ (setsBucketStep_sync hacc r)

/- ===== completeness of emitted SetGroups (C1) ===== -/

theorem completeSets_mem {wantHelmet : Bool} {bs : List Bucket} {g : Ready}
    (hg : g ∈ completeSets wantHelmet bs) :
    g.toBucket ∈ bs ∧ completeBucket wantHelmet g.toBucket = true := by
  unfold completeSets at hg
  rw [List.mem_filterMap] at hg
  obtain ⟨b, hb, hfb⟩ := hg
  split at hfb
  next hcomplete =>
    obtain rfl := Option.some_inj.mp hfb
    exact ⟨hb, hcomplete⟩
  next => exact absurd hfb (by simp)

theorem enrichSets_mem {resolve : List Char → Option (List Char)} {completed : List Ready}
    {g : Ready} (hg : g ∈ enrichSets resolve completed) :
    ∃ g0 ∈ completed, (∀ k, g.toBucket.pieceAt k = g0.toBucket.pieceAt k)
      ∧ (∀ k, g.toBucket.distAt k = g0.toBucket.distAt k) := by
  simp only [enrichSets] at hg
  rw [List.mem_map] at hg
  obtain ⟨g0, hg0, rfl⟩ := hg
  refine ⟨g0, hg0, ?_, ?_⟩ <;> intro k <;> split <;>
    first
      | rfl
      | simp [pieceAt_usernameUpd, distAt_usernameUpd]

/-- C1: every SetGroup emitted by the set-search pipeline (after sorting and
paging) has its chestplate, leggings and boots slots populated, has the
helmet slot populated whenever the query lacks the token `dragon`
(`requiresHelmet`), and records a distance for every required slot, so the
aggregates range over the full required-slot set. -/
theorem C1_setgroup_complete
    (resolve : List Char → Option (List Char)) (hex setLabel q : List Char)
    (tol off lim : Nat) (rows : List Row) (g : Ready)
    (hg : g ∈ ((setsPipeline resolve hex setLabel tol (requiresHelmet q) rows).drop off).take lim) :
    g.toBucket.pchestplate.isSome = true
    ∧ g.toBucket.pleggings.isSome = true
    ∧ g.toBucket.pboots.isSome = true
    ∧ (requiresHelmet q = true → g.toBucket.phelmet.isSome = true)
    ∧ (∀ k ∈ requiredPieces (requiresHelmet q), (g.toBucket.distAt k).isSome = true) := by
  have hg1 : g ∈ setsPipeline resolve hex setLabel tol (requiresHelmet q) rows :=
    List.mem_of_mem_drop (List.mem_of_mem_take hg)
  unfold setsPipeline at hg1
  rw [List.mem_mergeSort] at hg1
  obtain ⟨g0, hg0, hpieces, hdists⟩ := enrichSets_mem hg1
  obtain ⟨hbmem, hcomplete⟩ := completeSets_mem hg0
  rw [List.mem_map] at hbmem
  obtain ⟨kb, hkb, hkb2⟩ := hbmem
  have hsync : bucketSync g0.toBucket := hkb2 ▸ setsBuckets_sync hex setLabel tol rows kb hkb
  have hafter : ∀ k, (g.toBucket.pieceAt k).isSome = true →
      (g.toBucket.distAt k).isSome = true := by
    intro k hk
    rw [hdists k, ← hsync k, ← hpieces k]
    exact hk
  cases hreq : requiresHelmet q with
  | true =>
    rw [hreq] at hcomplete
    simp only [completeBucket] at hcomplete
    rw [Bool.and_eq_true, Bool.and_eq_true, Bool.and_eq_true] at hcomplete
    obtain ⟨⟨⟨hh, hc⟩, hl⟩, hb⟩ := hcomplete
    have hh' : (g.toBucket.pieceAt PieceKind.helmet).isSome = true := by
      rw [hpieces]; exact hh
    have hc' : (g.toBucket.pieceAt PieceKind.chestplate).isSome = true := by
      rw [hpieces]; exact hc
    have hl' : (g.toBucket.pieceAt PieceKind.leggings).isSome = true := by
      rw [hpieces]; exact hl
    have hb' : (g.toBucket.pieceAt PieceKind.boots).isSome = true := by
      rw [hpieces]; exact hb
    refine ⟨hc', hl', hb', fun _ => hh', ?_⟩
    intro k hk
    simp only [requiredPieces, List.mem_cons, List.not_mem_nil, or_false] at hk
    rcases hk with rfl | rfl | rfl | rfl
    · exact hafter _ hh'
    · exact hafter _ hc'
    · exact hafter _ hl'
    · exact hafter _ hb'
  | false =>
    rw [hreq] at hcomplete
    simp only [completeBucket] at hcomplete
    rw [Bool.and_eq_true, Bool.and_eq_true] at hcomplete
    obtain ⟨⟨hc, hl⟩, hb⟩ := hcomplete
    have hc' : (g.toBucket.pieceAt PieceKind.chestplate).isSome = true := by
      rw [hpieces]; exact hc
    have hl' : (g.toBucket.pieceAt PieceKind.leggings).isSome = true := by
      rw [hpieces]; exact hl
    have hb' : (g.toBucket.pieceAt PieceKind.boots).isSome = true := by
      rw [hpieces]; exact hb
    refine ⟨hc', hl', hb', fun habs => absurd habs (by simp [hreq]), ?_⟩
    intro k hk
    simp only [requiredPieces, List.mem_cons, List.not_mem_nil, or_false] at hk
    rcases hk with rfl | rfl | rfl
    · exact hafter _ hc'
    · exact hafter _ hl'
    · exact hafter _ hb'

/- ===== C1 witness data ===== -/

def resolveW : List Char → Option (List Char) := fun _ => none

def ownUuidW : List Char := ['u', '1']

def extraW : Extra := { owner_playerUuid := some ownUuidW, owner := none, reforge := none }

def hexW : List Char := ['#', '1', '0', '1', '0', '1', '0']

def lblW : List Char := ['s']

def qFarmW : List Char := ['f', 'a', 'r', 'm', ' ', 's', 'u', 'i', 't']

def mkRowW (id : Nat) (name : List Char) : Row :=
  { id := id, uuid := ['x'], name := name, color := some ['1', '0', '1', '0', '1', '0'],
    rarity := none, price := none, extra := some extraW }

def farmHelmetName : List Char :=
  ['F', 'a', 'r', 'm', ' ', 'S', 'u', 'i', 't', ' ', 'H', 'e', 'l', 'm', 'e', 't']

def farmChestName : List Char :=
  ['F', 'a', 'r', 'm', ' ', 'S', 'u', 'i', 't', ' ', 'C', 'h', 'e', 's', 't', 'p', 'l',
   'a', 't', 'e']

def farmLegsName : List Char :=
  ['F', 'a', 'r', 'm', ' ', 'S', 'u', 'i', 't', ' ', 'L', 'e', 'g', 'g', 'i', 'n', 'g', 's']

def farmBootsName : List Char :=
  ['F', 'a', 'r', 'm', ' ', 'S', 'u', 'i', 't', ' ', 'B', 'o', 'o', 't', 's']

def rowsW : List Row :=
  [mkRowW 1 farmHelmetName, mkRowW 2 farmChestName, mkRowW 3 farmLegsName,
   mkRowW 4 farmBootsName]

def bucketW : Bucket :=
  { ownerUuid := ownUuidW, ownerUsername := none, setLabel := lblW, color := hexW,
    phelmet := some (mkRowW 1 farmHelmetName), pchestplate := some (mkRowW 2 farmChestName),
    pleggings := some (mkRowW 3 farmLegsName), pboots := some (mkRowW 4 farmBootsName),
    dhelmet := some 0, dchestplate := some 0, dleggings := some 0, dboots := some 0,
    rarity := none }

def readyW : Ready :=
  { toBucket := bucketW, isExact := true, avgNum := 0, avgDen := 4, maxDist := 0 }

theorem C1_setgroup_complete_witness :
    readyW.toBucket.pchestplate.isSome = true ∧ readyW.toBucket.phelmet.isSome = true := by
  have hE : enrichSets resolveW (completeSets (requiresHelmet qFarmW)
      ((setsBuckets hexW lblW 0 rowsW).map Prod.snd)) = [readyW] := by decide
  have hpipe : setsPipeline resolveW hexW lblW 0 (requiresHelmet qFarmW) rowsW = [readyW] := by
    unfold setsPipeline
    rw [hE]
    exact List.mergeSort_of_sorted (by simp)
  have h := C1_setgroup_complete resolveW hexW lblW qFarmW 0 0 24 rowsW readyW
    (by rw [hpipe]; decide)
  exact ⟨h.1, h.2.2.2.1 (by decide)⟩

/- ===== C7: first writer wins ===== -/

theorem assocFind_append_of_some {acc : List (List Char × Bucket)} {key : List Char}
    {b : Bucket} (h : assocFind acc key = some b) (l : List (List Char × Bucket)) :
    assocFind (acc ++ l) key = some b := by
  induction acc with
  | nil => simp [assocFind] at h
  | cons kb t ih =>
    rw [List.cons_append]
    unfold assocFind at h ⊢
    split at h
    next hcond => rw [if_pos hcond]; exact h
    next hcond => rw [if_neg hcond]; exact ih h

theorem assocFind_map_update (acc : List (List Char × Bucket)) (key keyU : List Char)
    (f : Bucket → Bucket) :
    assocFind (acc.map (fun kb => if kb.1 = keyU then (kb.1, f kb.2) else kb)) key =
      if key = keyU then (assocFind acc key).map f else assocFind acc key := by
  induction acc with
  | nil => simp [assocFind]
  | cons kb t ih =>
    simp only [List.map_cons]
    by_cases h1 : kb.1 = keyU
    · by_cases h2 : kb.1 = key
      · have hkk : key = keyU := by rw [← h2, h1]
        simp [assocFind, h1, h2, hkk]
      · have hkk : ¬key = keyU := fun he => h2 (h1.trans he.symm)
        have hkk2 : ¬keyU = key := fun he => hkk he.symm
        simp [assocFind, h1, h2, hkk, hkk2, ih]
    · by_cases h2 : kb.1 = key
      · have hkk : ¬key = keyU := fun he => h1 (h2.trans he)
        simp [assocFind, h1, h2, hkk]
      · simp [assocFind, h1, h2, ih]

theorem setsBucketStep_persist {hex setLabel : List Char} {tol : Nat} {key : List Char}
    {k : PieceKind} {r₀ : Row} {d₀ : Nat} {acc : List (List Char × Bucket)} (r : Row)
    (hacc : (assocFind acc key).map (fun g => (g.pieceAt k, g.distAt k)) =
      some (some r₀, some d₀)) :
    (assocFind (setsBucketStep hex setLabel tol acc r) key).map
      (fun g => (g.pieceAt k, g.distAt k)) = some (some r₀, some d₀) := by
  obtain ⟨g₁, hfind, hp, hd⟩ :
      ∃ g₁, assocFind acc key = some g₁ ∧ g₁.pieceAt k = some r₀ ∧ g₁.distAt k = some d₀ := by
    cases hf : assocFind acc key with
    | none => rw [hf] at hacc; simp at hacc
    | some g =>
      rw [hf] at hacc
      simp only [Option.map_some', Option.some_inj, Prod.mk.injEq] at hacc
      exact ⟨g, rfl, hacc.1, hacc.2⟩
  unfold setsBucketStep
  split
  · rw [hfind]; simp [hp, hd]
  next owner piece dist heq =>
    split
    next gfound hfound =>
      rw [assocFind_map_update]
      by_cases hk : key = lowerStr owner
      · rw [if_pos hk, hfind]
        have hpres := bucketInsert_preserves hp hd piece r dist
        simp [hpres.1, hpres.2]
      · rw [if_neg hk, hfind]
        simp [hp, hd]
    next hnone =>
      rw [assocFind_append_of_some hfind]
      simp [hp, hd]

theorem setsBuckets_persist {hex setLabel : List Char} {tol : Nat} {key : List Char}
    {k : PieceKind} {r₀ : Row} {d₀ : Nat} (rows : List Row)
    (acc : List (List Char × Bucket))
    (hacc : (assocFind acc key).map (fun g => (g.pieceAt k, g.distAt k)) =
      some (some r₀, some d₀)) :
    (assocFind (rows.foldl (setsBucketStep hex setLabel tol) acc) key).map
      (fun g => (g.pieceAt k, g.distAt k)) = some (some r₀, some d₀) := by
  induction rows generalizing acc with
  | nil => exact hacc
  | cons r rs ih =>
    rw [List.foldl_cons]
    exact ih _ (setsBucketStep_persist r hacc)

/-- C7: within a bucket the first row stored for a slot persists — once a
bucket holds a row and distance for a PieceKind, processing any further rows
never replaces either, and a row aimed at an occupied slot leaves the bucket
entirely unchanged (first-writer-wins, not best-match-wins). -/
theorem C7_first_writer_wins (hex setLabel : List Char) (tol : Nat)
    (rows₁ rows₂ : List Row) (key : List Char) (g₁ : Bucket) (k : PieceKind)
    (r₀ : Row) (d₀ : Nat)
    (h1 : assocFind (setsBuckets hex setLabel tol rows₁) key = some g₁)
    (h2 : g₁.pieceAt k = some r₀) (h3 : g₁.distAt k = some d₀) :
    (assocFind (setsBuckets hex setLabel tol (rows₁ ++ rows₂)) key).map
        (fun g => (g.pieceAt k, g.distAt k)) = some (some r₀, some d₀)
    ∧ ∀ (g : Bucket) (piece : PieceKind) (r : Row) (d : Nat),
        (g.pieceAt piece).isSome = true → bucketInsert piece r d g = g := by
  constructor
  · have hfold : setsBuckets hex setLabel tol (rows₁ ++ rows₂) =
        rows₂.foldl (setsBucketStep hex setLabel tol) (setsBuckets hex setLabel tol rows₁) := by
      unfold setsBuckets
      rw [List.foldl_append]
    rw [hfold]
    exact setsBuckets_persist rows₂ _ (by rw [h1]; simp [h2, h3])
  · intro g piece r d h
    exact bucketInsert_occupied h r d

def rowChestA : Row := mkRowW 2 farmChestName

def rowChestB : Row :=
  { id := 9, uuid := ['y'], name := farmChestName, color := some ['2', '0', '2', '0', '2', '0'],
    rarity := none, price := none, extra := some extraW }

def bucketChestW : Bucket :=
  { ownerUuid := ownUuidW, ownerUsername := none, setLabel := lblW, color := hexW,
    phelmet := none, pchestplate := some rowChestA, pleggings := none, pboots := none,
    dhelmet := none, dchestplate := some 0, dleggings := none, dboots := none,
    rarity := none }

theorem C7_first_writer_wins_witness :
    (assocFind (setsBuckets hexW lblW 405 ([rowChestA] ++ [rowChestB])) ownUuidW).map
      (fun g => (g.pieceAt PieceKind.chestplate, g.distAt PieceKind.chestplate)) =
      some (some rowChestA, some 0) :=
  (C7_first_writer_wins hexW lblW 405 [rowChestA] [rowChestB] ownUuidW bucketChestW
    PieceKind.chestplate rowChestA 0 (by decide) (by decide) (by decide)).1

/- ===== Item Query Engine (items GET of the second next.config.js document,
lines 128-251) ===== -/

/-- The `exact` partition of the in-memory ranking loop (lines 211-221):
rows whose canonical color equals the target. -/
def exactRows (hex : List Char) (rows : List Row) : List Row :=
  rows.filter (fun r => normalizeHex r.color == some hex)

/-- The `near` partition: resolvable color, not exactly the target, nibble
distance within tolerance, paired with that distance. -/
def nearRows (hex : List Char) (tol : Nat) (rows : List Row) : List (Row × Nat) :=
  rows.filterMap fun r =>
    match normalizeHex r.color with
    | none => none
    | some c =>
      if c = hex then none
      else if nibbleDistance c hex ≤ tol then some (r, nibbleDistance c hex) else none

/-- `(a, b) => String(a.name).localeCompare(String(b.name)) ≤ 0`. -/
def nameLe (a b : Row) : Bool := lexLe a.name b.name

/-- `(a, b) => (a.dist - b.dist) || name compare ≤ 0`. -/
def nearLe (a b : Row × Nat) : Bool :=
  decide (a.2 < b.2) || (a.2 == b.2 && lexLe a.1.name b.1.name)

/-- Lines 227-231: `ranked = [...exact.sort(name), ...near.sort(dist, name)]`. -/
def itemsRanked (hex : List Char) (tol : Nat) (rows : List Row) : List Row :=
  (exactRows hex rows).mergeSort nameLe ++
    ((nearRows hex tol rows).mergeSort nearLe).map Prod.fst

/-- The SQL predicate `UPPER(REPLACE(COALESCE(color,''), '#','')) = hexNoHash`
of the exact fast path (lines 175-196). -/
def sqlColorEq (color : Option (List Char)) (hex : List Char) : Bool :=
  ((color.getD []).filter (fun ch => ch != '#')).map Char.toUpper ==
    (hex.drop 1).map Char.toUpper

structure ItemsOut where
  ok : Bool
  total : Nat
  items : List Row
  targetHex : Option (List Char)
deriving DecidableEq

/-- The item-search `GET` (lines 128-251) with the table contents as the
`rows` argument; owner decoration is factored out (see `decorateRows`). -/
def itemsGET (color : List Char) (tol limit page : Nat) (rows : List Row) : ItemsOut :=
  let tolC := min tol 405
  let limitC := min (max limit 1) 200
  let pageC := max page 1
  let offset := (pageC - 1) * limitC
  match normalizeHex (some (trimList color)) with
  | some hex =>
    if tolC = 0 then
      { ok := true, total := (rows.filter (fun r => sqlColorEq r.color hex)).length,
        items := (((rows.filter (fun r => sqlColorEq r.color hex)).mergeSort nameLe).drop
          offset).take limitC,
        targetHex := some hex }
    else
      { ok := true, total := (itemsRanked hex tolC rows).length,
        items := ((itemsRanked hex tolC rows).drop offset).take limitC,
        targetHex := some hex }
  | none =>
    { ok := true, total := (rows.mergeSort nameLe).length,
      items := ((rows.mergeSort nameLe).drop offset).take limitC,
      targetHex := none }

/- ===== order lemmas for the two comparators ===== -/

theorem lexLe_total (a b : List Char) : (lexLe a b || lexLe b a) = true := by
  induction a generalizing b with
  | nil => simp [lexLe]
  | cons c as ih =>
    cases b with
    | nil => simp [lexLe]
    | cons d bs =>
      by_cases h1 : c.toNat < d.toNat
      · simp [lexLe, h1]
      · by_cases h2 : d.toNat < c.toNat
        · simp [lexLe, h1, h2]
        · simp [lexLe, h1, h2, ih bs]

theorem lexLe_trans : ∀ {a b c : List Char},
    lexLe a b = true → lexLe b c = true → lexLe a c = true
  | [], _, _, _, _ => by simp [lexLe]
  | x :: as, [], _, h1, _ => by simp [lexLe] at h1
  | x :: as, y :: bs, [], _, h2 => by simp [lexLe] at h2
  | x :: as, y :: bs, z :: cs, h1, h2 => by
    simp only [lexLe] at h1 h2 ⊢
    split at h1
    next hxy =>
      split at h2
      next hyz => rw [if_pos (by omega)]
      next hyz =>
        split at h2
        next hzy => exact absurd h2 (by simp)
        next hzy => rw [if_pos (by omega)]
    next hxy =>
      split at h1
      next hyx => exact absurd h1 (by simp)
      next hyx =>
        split at h2
        next hyz => rw [if_pos (by omega)]
        next hyz =>
          split at h2
          next hzy => exact absurd h2 (by simp)
          next hzy =>
            rw [if_neg (by omega), if_neg (by omega)]
            exact lexLe_trans h1 h2

theorem nameLe_total (a b : Row) : (nameLe a b || nameLe b a) = true :=
  lexLe_total a.name b.name

theorem nameLe_trans {a b c : Row} (h1 : nameLe a b = true) (h2 : nameLe b c = true) :
    nameLe a c = true :=
  lexLe_trans h1 h2

theorem nearLe_trans {a b c : Row × Nat} (h1 : nearLe a b = true) (h2 : nearLe b c = true) :
    nearLe a c = true := by
  simp only [nearLe, Bool.or_eq_true, Bool.and_eq_true, decide_eq_true_eq,
    beq_iff_eq] at h1 h2 ⊢
  rcases h1 with h1 | ⟨h1e, h1l⟩ <;> rcases h2 with h2 | ⟨h2e, h2l⟩
  · exact Or.inl (by omega)
  · exact Or.inl (by omega)
  · exact Or.inl (by omega)
  · exact Or.inr ⟨by omega, lexLe_trans h1l h2l⟩

theorem nearLe_total (a b : Row × Nat) : (nearLe a b || nearLe b a) = true := by
  simp only [nearLe, Bool.or_eq_true, Bool.and_eq_true, decide_eq_true_eq, beq_iff_eq]
  rcases Nat.lt_trichotomy a.2 b.2 with h | h | h
  · exact Or.inl (Or.inl h)
  · rcases (by simpa using lexLe_total a.1.name b.1.name : _ ∨ _) with hl | hl
    · exact Or.inl (Or.inr ⟨h, hl⟩)
    · exact Or.inr (Or.inr ⟨h.symm, hl⟩)
  · exact Or.inr (Or.inl h)

/- ===== distance zero means equal canonical colors ===== -/

theorem canonical_parts {s : List Char} (h : isCanonicalHex s = true) :
    ∃ a0 a1 a2 a3 a4 a5, s = ['#', a0, a1, a2, a3, a4, a5]
      ∧ isUpperHexDigit a0 = true ∧ isUpperHexDigit a1 = true ∧ isUpperHexDigit a2 = true
      ∧ isUpperHexDigit a3 = true ∧ isUpperHexDigit a4 = true ∧ isUpperHexDigit a5 = true := by
  rcases s with _ | ⟨c, t⟩
  · simp [isCanonicalHex] at h
  · simp only [isCanonicalHex, Bool.and_eq_true, beq_iff_eq] at h
    obtain ⟨⟨rfl, hlen⟩, hall⟩ := h
    rcases t with _ | ⟨a0, _ | ⟨a1, _ | ⟨a2, _ | ⟨a3, _ | ⟨a4, _ | ⟨a5, _ | ⟨a6, t⟩⟩⟩⟩⟩⟩⟩ <;>
      simp_all [List.all_eq_true]
    exact ⟨a0, a1, a2, a3, a4, a5, ⟨rfl, rfl, rfl, rfl, rfl, rfl⟩, hall.1, hall.2.1,
      hall.2.2.1, hall.2.2.2.1, hall.2.2.2.2.1, hall.2.2.2.2.2⟩

theorem hexVal_inj_upper {c d : Char} (hc : isUpperHexDigit c = true)
    (hd : isUpperHexDigit d = true) (h : hexVal c = hexVal d) : c = d := by
  have h1 := all_mem upperHex_hexVal_inj (of_decide_eq_true hc)
  have h2 := all_mem h1 (of_decide_eq_true hd)
  exact of_decide_eq_true h2 h

theorem absDiff_eq_zero {x y : Nat} (h : absDiff x y = 0) : x = y := by
  unfold absDiff at h
  omega

theorem nibbleDistance_eq_zero_iff {a b : List Char} (ha : isCanonicalHex a = true)
    (hb : isCanonicalHex b = true) : nibbleDistance a b = 0 ↔ a = b := by
  constructor
  · intro h
    obtain ⟨a0, a1, a2, a3, a4, a5, rfl, ha0, ha1, ha2, ha3, ha4, ha5⟩ := canonical_parts ha
    obtain ⟨b0, b1, b2, b3, b4, b5, rfl, hb0, hb1, hb2, hb3, hb4, hb5⟩ := canonical_parts hb
    rw [nibbleDistance_unfold] at h
    have e0 := @absDiff_eq_zero (nib ['#', a0, a1, a2, a3, a4, a5] 0)
      (nib ['#', b0, b1, b2, b3, b4, b5] 0) (by omega)
    have e1 := @absDiff_eq_zero (nib ['#', a0, a1, a2, a3, a4, a5] 1)
      (nib ['#', b0, b1, b2, b3, b4, b5] 1) (by omega)
    have e2 := @absDiff_eq_zero (nib ['#', a0, a1, a2, a3, a4, a5] 2)
      (nib ['#', b0, b1, b2, b3, b4, b5] 2) (by omega)
    have e3 := @absDiff_eq_zero (nib ['#', a0, a1, a2, a3, a4, a5] 3)
      (nib ['#', b0, b1, b2, b3, b4, b5] 3) (by omega)
    have e4 := @absDiff_eq_zero (nib ['#', a0, a1, a2, a3, a4, a5] 4)
      (nib ['#', b0, b1, b2, b3, b4, b5] 4) (by omega)
    have e5 := @absDiff_eq_zero (nib ['#', a0, a1, a2, a3, a4, a5] 5)
      (nib ['#', b0, b1, b2, b3, b4, b5] 5) (by omega)
    simp only [nib, List.drop_succ_cons, List.drop_zero, List.map_cons, List.getD] at e0 e1 e2 e3 e4 e5
    rw [toUpper_of_upperHex ha0, toUpper_of_upperHex hb0] at e0
    rw [toUpper_of_upperHex ha1, toUpper_of_upperHex hb1] at e1
    rw [toUpper_of_upperHex ha2, toUpper_of_upperHex hb2] at e2
    rw [toUpper_of_upperHex ha3, toUpper_of_upperHex hb3] at e3
    rw [toUpper_of_upperHex ha4, toUpper_of_upperHex hb4] at e4
    rw [toUpper_of_upperHex ha5, toUpper_of_upperHex hb5] at e5
    rw [hexVal_inj_upper ha0 hb0 e0, hexVal_inj_upper ha1 hb1 e1,
      hexVal_inj_upper ha2 hb2 e2, hexVal_inj_upper ha3 hb3 e3,
      hexVal_inj_upper ha4 hb4 e4, hexVal_inj_upper ha5 hb5 e5]
  · intro h
    rw [h]
    exact nibbleDistance_self b

/- ===== C2: ranking of the item search ===== -/

/-- The nibble distance of a row's canonical color to the target. -/
def rowDist (hex : List Char) (r : Row) : Option Nat :=
  (normalizeHex r.color).map (fun c => nibbleDistance c hex)

theorem normalizeHex_shape_opt {o : Option (List Char)} {r : List Char}
    (h : normalizeHex o = some r) : isCanonicalHex r = true := by
  cases o with
  | none => simp [normalizeHex] at h
  | some s => exact normalizeHex_shape h

theorem nearRows_mem {hex : List Char} {tol : Nat} {rows : List Row} {p : Row × Nat}
    (hp : p ∈ nearRows hex tol rows) :
    p.1 ∈ rows ∧ ∃ c, normalizeHex p.1.color = some c ∧ c ≠ hex
      ∧ nibbleDistance c hex = p.2 ∧ p.2 ≤ tol := by
  unfold nearRows at hp
  rw [List.mem_filterMap] at hp
  obtain ⟨a, ha, hfa⟩ := hp
  split at hfa
  · exact absurd hfa (by simp)
  next c hcol =>
    split at hfa
    next hceq => exact absurd hfa (by simp)
    next hceq =>
      split at hfa
      next hle =>
        obtain rfl := Option.some_inj.mp hfa
        exact ⟨ha, c, hcol, hceq, rfl, hle⟩
      next hle => exact absurd hfa (by simp)

/-- C2: for a valid target and tolerance > 0, the ranked list is the exact
partition (all at distance 0) sorted by name ascending, followed by the near
partition (all at distance in (0, tolerance]) sorted by distance ascending
with ties broken by name ascending.  The ranking is a pure function of its
inputs, hence deterministic. -/
theorem C2_item_ranking (hex : List Char) (tol : Nat) (rows : List Row)
    (hhex : isCanonicalHex hex = true) (htol : 0 < tol) :
    itemsRanked hex tol rows =
      (exactRows hex rows).mergeSort nameLe ++
        ((nearRows hex tol rows).mergeSort nearLe).map Prod.fst
    ∧ (∀ r ∈ (exactRows hex rows).mergeSort nameLe, rowDist hex r = some 0)
    ∧ ((exactRows hex rows).mergeSort nameLe).Pairwise (fun a b => nameLe a b = true)
    ∧ (∀ p ∈ (nearRows hex tol rows).mergeSort nearLe,
        0 < p.2 ∧ p.2 ≤ tol ∧ rowDist hex p.1 = some p.2)
    ∧ ((nearRows hex tol rows).mergeSort nearLe).Pairwise
        (fun p q => nearLe p q = true) := by
  refine ⟨rfl, ?_, ?_, ?_, ?_⟩
  · intro r hr
    rw [List.mem_mergeSort] at hr
    unfold exactRows at hr
    rw [List.mem_filter] at hr
    have hcol : normalizeHex r.color = some hex := eq_of_beq hr.2
    rw [rowDist, hcol]
    simp [nibbleDistance_self]
  · exact @List.sorted_mergeSort Row nameLe (fun a b c h1 h2 => nameLe_trans h1 h2)
      nameLe_total (exactRows hex rows)
  · intro p hp
    rw [List.mem_mergeSort] at hp
    obtain ⟨hmem, c, hcol, hne, hdist, hle⟩ := nearRows_mem hp
    have hc : isCanonicalHex c = true := normalizeHex_shape_opt hcol
    have hpos : 0 < p.2 := by
      rcases Nat.eq_zero_or_pos p.2 with h0 | h
      · exact absurd ((nibbleDistance_eq_zero_iff hc hhex).mp (by omega)) hne
      · exact h
    refine ⟨hpos, hle, ?_⟩
    rw [rowDist, hcol]
    simp [hdist]
  · exact @List.sorted_mergeSort (Row × Nat) nearLe (fun a b c h1 h2 => nearLe_trans h1 h2)
      nearLe_total (nearRows hex tol rows)

def rowsC2W : List Row := [rowChestA, rowChestB]

theorem C2_item_ranking_witness :
    0 < (24 : Nat) ∧ (24 : Nat) ≤ 50 ∧ rowDist hexW rowChestB = some 24 := by
  have h := C2_item_ranking hexW 50 rowsC2W (by decide) (by decide)
  have hmem : (rowChestB, 24) ∈ (nearRows hexW 50 rowsC2W).mergeSort nearLe := by
    rw [List.mem_mergeSort]
    decide
  simpa using h.2.2.2.1 (rowChestB, 24) hmem

/- ===== C3: tolerance boundary in both pipelines ===== -/

/-- C3: with tolerance `t > 0`, a candidate row with resolvable owner, piece
and color sitting at nibble distance exactly `t` is admitted both by the
item-search near partition (and hence the ranked list) and by the
set-aggregation row filter, while distance `t + 1` is excluded from both. -/
theorem C3_tolerance_boundary (hex c : List Char) (tol : Nat) (r : Row) (rows : List Row)
    (htol : 0 < tol) (hc : normalizeHex r.color = some c) (hmem : r ∈ rows)
    (owner : List Char) (piece : PieceKind)
    (hown : rowOwnerUuid r = some owner) (howne : owner.isEmpty = false)
    (hpiece : detectPiece r.name = some piece) :
    (nibbleDistance c hex = tol →
      (r, tol) ∈ nearRows hex tol rows ∧ r ∈ itemsRanked hex tol rows
        ∧ setsRowCheck hex tol r = some (owner, piece, tol))
    ∧ (nibbleDistance c hex = tol + 1 →
      (∀ d, (r, d) ∉ nearRows hex tol rows) ∧ r ∉ itemsRanked hex tol rows
        ∧ setsRowCheck hex tol r = none) := by
  have ht0 : ¬tol = 0 := by omega
  constructor
  · intro hdist
    have hne : c ≠ hex := by
      intro he
      subst he
      rw [nibbleDistance_self] at hdist
      omega
    have hnear : (r, tol) ∈ nearRows hex tol rows := by
      unfold nearRows
      rw [List.mem_filterMap]
      refine ⟨r, hmem, ?_⟩
      simp [hc, hne, hdist]
    refine ⟨hnear, ?_, ?_⟩
    · unfold itemsRanked
      rw [List.mem_append]
      right
      rw [List.mem_map]
      exact ⟨(r, tol), List.mem_mergeSort.mpr hnear, rfl⟩
    · simp [setsRowCheck, hown, howne, hpiece, hc, hdist, ht0]
  · intro hdist
    have hnotnear : ∀ d, (r, d) ∉ nearRows hex tol rows := by
      intro d hd
      obtain ⟨_, c', hcol', hne', hdist', hle'⟩ := nearRows_mem hd
      rw [hc] at hcol'
      obtain rfl := Option.some_inj.mp hcol'
      omega
    have hnotexact : r ∉ exactRows hex rows := by
      intro hr
      unfold exactRows at hr
      rw [List.mem_filter] at hr
      have heq : normalizeHex r.color = some hex := eq_of_beq hr.2
      rw [hc] at heq
      obtain rfl := Option.some_inj.mp heq
      rw [nibbleDistance_self] at hdist
      omega
    refine ⟨hnotnear, ?_, ?_⟩
    · intro hr
      unfold itemsRanked at hr
      rw [List.mem_append] at hr
      rcases hr with hr | hr
      · exact hnotexact (List.mem_mergeSort.mp hr)
      · rw [List.mem_map] at hr
        obtain ⟨p, hp, hp1⟩ := hr
        rw [List.mem_mergeSort] at hp
        apply hnotnear p.2
        have hpeta : (r, p.2) = p := by
          rw [← hp1]
        rw [hpeta]
        exact hp
    · simp [setsRowCheck, hown, howne, hpiece, hc, hdist, ht0]

def cNearW : List Char := ['#', '2', '0', '2', '0', '2', '0']

theorem C3_tolerance_boundary_witness :
    (rowChestB, 24) ∈ nearRows hexW 24 [rowChestB]
      ∧ setsRowCheck hexW 24 rowChestB = some (ownUuidW, PieceKind.chestplate, 24) := by
  have h := C3_tolerance_boundary hexW cNearW 24 rowChestB [rowChestB] (by decide)
    (by decide) (by decide) ownUuidW PieceKind.chestplate (by decide) (by decide) (by decide)
  have h1 := h.1 (by decide)
  exact ⟨h1.1, h1.2.2⟩

/- ===== C8: invalid target color, per-endpoint behaviors ===== -/

/-- C8: when the target color fails to normalize, the item search proceeds
with no color filter — `ok : true`, no target echoed, every row (after the
other filters) ranked as an exact match and paged by name — while the set
search rejects the request with a 400-class `ok : false` client error. -/
theorem C8_invalid_color_divergence (resolve : List Char → Option (List Char))
    (q color : List Char) (tol limit page : Nat) (rows : List Row)
    (h : normalizeHex (some (trimList color)) = none) :
    (itemsGET color tol limit page rows).ok = true
    ∧ (itemsGET color tol limit page rows).targetHex = none
    ∧ (itemsGET color tol limit page rows).total = rows.length
    ∧ (itemsGET color tol limit page rows).items =
        ((rows.mergeSort nameLe).drop ((max page 1 - 1) * min (max limit 1) 200)).take
          (min (max limit 1) 200)
    ∧ setsGET resolve q color tol limit page rows = SetsOut.clientError := by
  refine ⟨?_, ?_, ?_, ?_, ?_⟩ <;> simp [itemsGET, setsGET, h]

theorem C8_invalid_color_divergence_witness :
    (itemsGET ['z', 'z'] 5 24 1 []).ok = true
    ∧ setsGET resolveW ['q'] ['z', 'z'] 5 24 1 [] = SetsOut.clientError := by
  have h := C8_invalid_color_divergence resolveW ['q'] ['z', 'z'] 5 24 1 [] (by decide)
  exact ⟨h.1, h.2.2.2.2⟩

/- ===== C9: owner-enrichment cap ===== -/

/-- The decorated shape of an item row, restricted to the owner fields the
claims are about (the remaining `decorate` fields are deterministic string
templating over these, out of the core per §3 OwnerInfo). -/
structure OutRow where
  row : Row
  ownerUuid : Option (List Char)
  ownerUsername : Option (List Char)
deriving DecidableEq

/-- `extra?... || null`: the truthy owner of a row, if any. -/
def rowOwnerTruthy (r : Row) : Option (List Char) :=
  match rowOwnerUuid r with
  | none => none
  | some u => if u.isEmpty then none else some u

/-- `Array.from(owners).slice(0, 50)` of `decorate` (lines 284-286). -/
def itemsOwnersToResolve (rows : List Row) : List (List Char) :=
  (dedupKeepFirst (rows.filterMap rowOwnerTruthy)).take 50

/-- `decorate` (lines 254-296), owner fields only: every row keeps its
truthy owner, and only owners inside the capped batch get a username. -/
def decorateRows (resolve : List Char → Option (List Char)) (rows : List Row) :
    List OutRow :=
  rows.map fun r =>
    match rowOwnerTruthy r with
    | none => { row := r, ownerUuid := none, ownerUsername := none }
    | some u =>
      if u ∈ itemsOwnersToResolve rows then
        { row := r, ownerUuid := some u, ownerUsername := jsOrStr (resolve u) none }
      else { row := r, ownerUuid := some u, ownerUsername := none }

/-- C9: both endpoints submit at most 50 distinct owner identifiers for
username resolution, and any result row or group whose owner is outside the
capped batch keeps a null username (the enrichment itself is total, so the
request never fails on account of the excess identifiers). -/
theorem C9_owner_cap (resolve : List Char → Option (List Char)) (rows : List Row)
    (completed : List Ready) (hnull : ∀ g ∈ completed, g.ownerUsername = none) :
    (setsOwnersToResolve completed).length ≤ 50
    ∧ (∀ g ∈ enrichSets resolve completed,
        g.ownerUuid ∉ setsOwnersToResolve completed → g.ownerUsername = none)
    ∧ (itemsOwnersToResolve rows).length ≤ 50
    ∧ (∀ o ∈ decorateRows resolve rows, ∀ u, o.ownerUuid = some u →
        u ∉ itemsOwnersToResolve rows → o.ownerUsername = none) := by
  refine ⟨?_, ?_, ?_, ?_⟩
  · unfold setsOwnersToResolve
    rw [List.length_take]
    exact Nat.min_le_left _ _
  · intro g hg hnotin
    simp only [enrichSets] at hg
    rw [List.mem_map] at hg
    obtain ⟨g0, hg0, rfl⟩ := hg
    split at hnotin
    next hcond =>
      rw [Bool.and_eq_true] at hcond
      exact absurd (of_decide_eq_true hcond.2) (by simpa using hnotin)
    next hcond =>
      rw [if_neg hcond]
      exact hnull g0 hg0
  · unfold itemsOwnersToResolve
    rw [List.length_take]
    exact Nat.min_le_left _ _
  · intro o ho u hu hnotin
    unfold decorateRows at ho
    rw [List.mem_map] at ho
    obtain ⟨r, hr, rfl⟩ := ho
    cases ht : rowOwnerTruthy r with
    | none =>
      simp only [ht] at hu
      exact absurd hu (by simp)
    | some u0 =>
      simp only [ht] at hu ⊢
      split at hu
      next hin =>
        obtain rfl : u0 = u := Option.some_inj.mp (by simpa using hu)
        exact absurd hin hnotin
      next hin =>
        rw [if_neg hin]

def natDigit (n : Nat) : Char := Char.ofNat (48 + n % 10)

def ownerNameN (i : Nat) : List Char := ['u', natDigit (i / 10), natDigit i]

def mkReadyN (i : Nat) : Ready :=
  { toBucket :=
      { ownerUuid := ownerNameN i, ownerUsername := none, setLabel := lblW, color := hexW,
        phelmet := none, pchestplate := none, pleggings := none, pboots := none,
        dhelmet := none, dchestplate := none, dleggings := none, dboots := none,
        rarity := none },
    isExact := true, avgNum := 0, avgDen := 3, maxDist := 0 }

def completedW60 : List Ready := (List.range 60).map mkReadyN

set_option maxRecDepth 4000 in
theorem C9_owner_cap_witness :
    (setsOwnersToResolve completedW60).length ≤ 50
      ∧ (mkReadyN 55).ownerUsername = none := by
  have h := C9_owner_cap resolveW [] completedW60 (by decide)
  exact ⟨h.1, h.2.1 (mkReadyN 55) (by decide) (by decide)⟩

end SkyblockSniper
